import Mathlib

/-!
Verification development for the montycat transport and framing layer.

The definitions below are a shallow embedding of the client code:
  * the wire value model (`Json`) and the request encoder (`Req.byteDown`,
    translated from `src/request/structure.rs`),
  * the transport orchestration (`sendData`, translated from
    `src/engine/utils.rs::send_data`), with network effects supplied as an
    explicit trace of read events and failure injections,
  * the response normalizer (`recursivelyParseJson`, translated from
    `src/response/structure.rs`),
  * the custom-key hasher (`convert_custom_key` over `xxh32`, translated
    from `src/request/utis/functions.rs`).
Machine integers are modelled as `Nat` with explicit reduction modulo 2 ^ 32
where the source relies on wrapping arithmetic.
-/

namespace Montycat

/-- Bytes are modelled as natural numbers (values below 256 in any real trace). -/
abbrev Byte := Nat

/-- The newline byte that the wire protocol uses as its frame delimiter. -/
def nlByte : Byte := 10

/-! ## Transport model: `send_data` from `src/engine/utils.rs`

`send_data` performs socket I/O; the embedding turns every effectful step
into explicit data: the outcomes of connect / TLS handshake / write / flush /
shutdown are injected through a `NetEnv`, and the successive outcomes of
`reader.read` are a finite trace of events.  A trace that runs out before the
loop exits corresponds to a run where the loop is still blocked on a read;
this is reported as `.starved` so that no partial run is confused with a
completed one. -/

/-- Outcome of one `reader.read` call in the bounded one-shot loop
(`timeout(Duration::from_secs(120), reader.read(..))`): the read returns
bytes, fails with an I/O error, or the 120 s timeout elapses. -/
inductive OneShotRead where
  | data (bytes : List Byte)
  | fail (msg : String)
  | elapsed
deriving Repr, DecidableEq

/-- Outcome of one `reader.read` call in the streaming loop (no timeout). -/
inductive StreamRead where
  | data (bytes : List Byte)
  | fail (msg : String)
deriving Repr, DecidableEq

/-- One iteration of the streaming loop: what the cancellation poll
(`stop.has_changed()` returning `Ok(true)` together with `*stop.borrow()`)
observes, and what the subsequent read would return. -/
structure StreamStep where
  cancelSet : Bool
  read : StreamRead
deriving Repr, DecidableEq

/-- How a read loop ended: `normal` is a `break` out of the loop, `ioError`
is an early return through `?`, `starved` means the event trace was
exhausted while the loop was still running (the run is not yet complete). -/
inductive LoopExit where
  | normal
  | ioError (msg : String)
  | starved
deriving Repr, DecidableEq

/-- The one-shot read loop of `send_data` (utils.rs lines 176-195): read a
chunk; a timeout or read error aborts the whole call; zero bytes read breaks
the loop; otherwise the chunk is appended to the accumulation buffer and the
loop breaks as soon as the buffer contains a newline byte.  Returns the
buffer contents at exit together with how the loop exited. -/
def oneShotLoop : List OneShotRead → List Byte → (List Byte × LoopExit)
  | [], buf => (buf, .starved)
  | .elapsed :: _, buf => (buf, .ioError ("deadline has elapsed"))
  | .fail e :: _, buf => (buf, .ioError e)
  | .data d :: rest, buf =>
    if d = [] then (buf, .normal)
    else
      let b := buf ++ d
      if nlByte ∈ b then (b, .normal) else oneShotLoop rest b

/-- Result of the streaming loop: the sequence of buffers handed to the
callback from this point on, the number of reads actually performed, and how
the loop ended. -/
structure StreamResult where
  calls : List (List Byte)
  readsDone : Nat
  exit : LoopExit
deriving Repr, DecidableEq

/-- The streaming (subscription) read loop of `send_data` (utils.rs lines
143-169): each iteration first polls the cancellation token (only when a
`stop_event` is present) and breaks if it is observed set, then reads a
chunk; zero bytes breaks, a read error aborts; the chunk is appended to the
buffer and, whenever the buffer contains a newline, the callback (when
present) is invoked once with the whole buffer, which is then cleared. -/
def streamLoop (stopPresent cb : Bool) : List StreamStep → List Byte → StreamResult
  | [], _ => ⟨[], 0, .starved⟩
  | step :: rest, buf =>
    if stopPresent && step.cancelSet then ⟨[], 0, .normal⟩
    else
      match step.read with
      | .fail e => ⟨[], 1, .ioError e⟩
      | .data d =>
        if d = [] then ⟨[], 1, .normal⟩
        else
          let b := buf ++ d
          if nlByte ∈ b then
            let r := streamLoop stopPresent cb rest []
            ⟨(if cb then [b] else []) ++ r.calls, r.readsDone + 1, r.exit⟩
          else
            let r := streamLoop stopPresent cb rest b
            ⟨r.calls, r.readsDone + 1, r.exit⟩

/-- Outcome of the TLS handshake attempt
(`timeout(Duration::from_secs(10), connector.connect(..))`). -/
inductive HandshakeEv where
  | ok
  | hserr (msg : String)
  | timedOut
deriving Repr, DecidableEq

/-- The environment a single `send_data` call runs in: the compile-time TLS
feature flag, the `use_tls` argument, injected outcomes for every fallible
effect, the presence of the optional `stop_event` and `callback` arguments,
and the read-event traces for both loops. -/
structure NetEnv where
  tlsFeature : Bool
  useTls : Bool
  connectErr : Option String
  serverNameErr : Option String
  handshake : HandshakeEv
  writeErr : Option String
  flushErr : Option String
  shutdownErr : Option String
  stopPresent : Bool
  callbackPresent : Bool
  streamSteps : List StreamStep
  oneShotReads : List OneShotRead
deriving Repr, DecidableEq

/-- Final outcome of a `send_data` call: `ok` mirrors
`Ok(Some(bytes))` / `Ok(None)`, `err` mirrors `Err(MontycatClientError
::ClientEngineError(msg))`; `starved` marks an incomplete trace. -/
inductive SendOutcome where
  | ok (resp : Option (List Byte))
  | err (msg : String)
  | starved
deriving Repr, DecidableEq

/-- Observable behaviour of one `send_data` call. -/
structure SendTrace where
  connectAttempted : Bool
  writeAttempted : Bool
  usedStreamLoop : Bool
  calls : List (List Byte)
  shutdownAttempted : Bool
  outcome : SendOutcome
deriving Repr, DecidableEq

/-- The literal bytes of the ASCII token `subscribe`. -/
def subscribeBytes : List Byte := [115, 117, 98, 115, 99, 114, 105, 98, 101]

/-- The test `query.windows(9).any(|w| w == b"subscribe")` (utils.rs line 140):
true when some length-9 window of the query equals the token bytes.  A
window starting at position `i` of the list is its tail at `i` truncated to
9 elements; a list shorter than 9 yields no window (a 9-element `take` can
only equal the 9-byte token when 9 bytes are present). -/
def containsSubscribe : List Byte → Bool
  | [] => false
  | l@(_ :: t) => decide (l.take 9 = subscribeBytes) || containsSubscribe t

/-- The shared tail of `send_data` after the connection has been
established and split: write the query, flush, pick the read loop by
inspecting the query bytes, run it, and shut the write half down when the
loop breaks normally. -/
def sendDataAfterConnect (env : NetEnv) (query : List Byte) : SendTrace :=
  match env.writeErr with
  | some e => ⟨true, true, false, [], false, .err e⟩
  | none =>
    match env.flushErr with
    | some e => ⟨true, true, false, [], false, .err e⟩
    | none =>
      if containsSubscribe query then
        let r := streamLoop env.stopPresent env.callbackPresent env.streamSteps []
        match r.exit with
        | .normal =>
          match env.shutdownErr with
          | some e => ⟨true, true, true, r.calls, true, .err e⟩
          | none => ⟨true, true, true, r.calls, true, .ok none⟩
        | .ioError e => ⟨true, true, true, r.calls, false, .err e⟩
        | .starved => ⟨true, true, true, r.calls, false, .starved⟩
      else
        let p := oneShotLoop env.oneShotReads []
        match p.2 with
        | .normal =>
          match env.shutdownErr with
          | some e => ⟨true, true, false, [], true, .err e⟩
          | none => ⟨true, true, false, [], true, .ok (some p.1)⟩
        | .ioError e => ⟨true, true, false, [], false, .err e⟩
        | .starved => ⟨true, true, false, [], false, .starved⟩

/-- The transport entry point `send_data` (utils.rs lines 80-201).  Control flow before the loops:
connect (line 90); when `use_tls` is set and the `tls` feature is compiled,
resolve the server name and run the bounded handshake (lines 94-115), while
without the feature the call fails with the configuration error (line 119);
in a TLS build a call that did not produce a TLS stream fails with
`TLS stream not initialized` (lines 123-128) before anything is written;
in a non-TLS build the plain TCP stream is used (line 131). -/
def sendData (env : NetEnv) (query : List Byte) : SendTrace :=
  match env.connectErr with
  | some e => ⟨true, false, false, [], false, .err e⟩
  | none =>
    if env.useTls then
      if env.tlsFeature then
        match env.serverNameErr with
        | some e => ⟨true, false, false, [], false, .err e⟩
        | none =>
          match env.handshake with
          | .hserr e => ⟨true, false, false, [], false, .err ("TLS handshake failed: " ++ e)⟩
          | .timedOut => ⟨true, false, false, [], false, .err ("TLS handshake timed out")⟩
          | .ok => sendDataAfterConnect env query
      else ⟨true, false, false, [], false, .err ("TLS feature not enabled")⟩
    else
      if env.tlsFeature then ⟨true, false, false, [], false, .err ("TLS stream not initialized")⟩
      else sendDataAfterConnect env query

/-! ## JSON value model

`simd_json::OwnedValue` / `serde_json::Value` restricted to the shapes this
client produces and consumes: null, booleans, (integral) numbers, strings,
arrays, and objects as ordered association lists (the encoder uses
`IndexMap`, which preserves insertion order). -/

/-- A JSON document. -/
inductive Json where
  | null
  | bool (b : Bool)
  | num (n : Int)
  | str (s : String)
  | arr (elems : List Json)
  | obj (fields : List (String × Json))
deriving Repr

/-- Left brace character. -/
def lbraceChar : Char := Char.ofNat 123
/-- Right brace character. -/
def rbraceChar : Char := Char.ofNat 125
/-- Left bracket character. -/
def lbrackChar : Char := Char.ofNat 91
/-- Right bracket character. -/
def rbrackChar : Char := Char.ofNat 93
/-- Double-quote character. -/
def quoteChar : Char := Char.ofNat 34
/-- Backslash character. -/
def backslashChar : Char := Char.ofNat 92

/-! ## Response normalizer: `recursively_parse_json` from
`src/response/structure.rs` (lines 69-106 and identically 153-190)

The Rust function re-parses with `simd_json::from_slice`; the embedding
abstracts that external parser as a parameter `parse`.  The source recursion
is unbounded; here a fuel parameter makes it total, and every claim is
stated with enough fuel for the recursion actually performed. -/

/-- The delimiter test on a payload string
(`(s.starts_with('{') && s.ends_with('}')) || (s.starts_with('[') &&
s.ends_with(']'))`): the first and last characters of the raw, untrimmed
string are a matching brace or bracket pair. -/
def delimitedGuard (s : String) : Bool :=
  (s.data.head? = some lbraceChar && s.data.getLast? = some rbraceChar)
    || (s.data.head? = some lbrackChar && s.data.getLast? = some rbrackChar)

/-- The normalizer `recursively_parse_json`: a string passing `delimitedGuard` whose
re-parse succeeds is replaced by the parsed structure and normalized again;
a string that fails the guard or fails to re-parse is kept; arrays and
objects are rebuilt element-wise / field-wise; other scalars pass through. -/
def recursivelyParseJson (parse : String → Option Json) : Nat → Json → Json
  | 0, v => v
  | fuel + 1, v =>
    match v with
    | .str s =>
      if delimitedGuard s then
        match parse s with
        | some inner => recursivelyParseJson parse fuel inner
        | none => .str s
      else .str s
    | .arr xs => .arr (xs.map (recursivelyParseJson parse fuel))
    | .obj kvs => .obj (kvs.map (fun kv => (kv.1, recursivelyParseJson parse fuel kv.2)))
    | other => other

/-- Whitespace as trimming sees it (the ASCII whitespace characters;
sufficient for every input considered here). -/
def isWsChar (c : Char) : Bool :=
  c = ' ' || c = Char.ofNat 9 || c = Char.ofNat 10 || c = Char.ofNat 13

/-- Leading and trailing whitespace removed — `str::trim` on the
character list. -/
def trimChars (cs : List Char) : List Char :=
  ((cs.dropWhile isWsChar).reverse.dropWhile isWsChar).reverse

/-- Modelled from the spec: the normalizer as §4.5 words it, with the
delimiter test applied to the *trimmed* content of the string ("any JSON
string whose trimmed content starts-and-ends with matching delimiters ...").
It exists only to be compared against `recursivelyParseJson`, which is the
translation of the code. -/
def recursivelyParseJsonSpecTrimmed (parse : String → Option Json) : Nat → Json → Json
  | 0, v => v
  | fuel + 1, v =>
    match v with
    | .str s =>
      if delimitedGuard (String.mk (trimChars s.data)) then
        match parse s with
        | some inner => recursivelyParseJsonSpecTrimmed parse fuel inner
        | none => .str s
      else .str s
    | .arr xs => .arr (xs.map (recursivelyParseJsonSpecTrimmed parse fuel))
    | .obj kvs => .obj (kvs.map (fun kv => (kv.1, recursivelyParseJsonSpecTrimmed parse fuel kv.2)))
    | other => other

/-! ## Key hasher: `convert_custom_key` from `src/request/utis/functions.rs`

`xxh32(key.to_string().as_bytes(), 0).to_string()`: the xxHash32 algorithm
with seed 0 over the UTF-8 bytes of the key's display string, rendered in
decimal.  All 32-bit arithmetic is `Nat` arithmetic reduced modulo 2 ^ 32. -/

/-- The modulus 2 ^ 32 of the 32-bit wrapping arithmetic in xxHash32. -/
def m32 : Nat := 4294967296

/-- xxHash32 prime 1. -/
def xxPrime1 : Nat := 2654435761
/-- xxHash32 prime 2. -/
def xxPrime2 : Nat := 2246822519
/-- xxHash32 prime 3. -/
def xxPrime3 : Nat := 3266489917
/-- xxHash32 prime 4. -/
def xxPrime4 : Nat := 668265263
/-- xxHash32 prime 5. -/
def xxPrime5 : Nat := 374761393

/-- Left rotation (32-bit) of `x` (taken modulo 2 ^ 32) by `r` places. -/
def rotl32 (x r : Nat) : Nat :=
  ((x % m32) * 2 ^ r) % m32 + (x % m32) / 2 ^ (32 - r)

/-- Little-endian 32-bit word from four bytes. -/
def le32 (a b c d : Byte) : Nat := a + b * 256 + c * 65536 + d * 16777216

/-- One xxHash32 accumulator round. -/
def xxRound (acc lane : Nat) : Nat :=
  (rotl32 ((acc + lane * xxPrime2) % m32) 13 * xxPrime1) % m32

/-- Consume 16-byte stripes while at least 16 bytes remain, updating the
four lane accumulators; returns the accumulators and the remaining bytes. -/
def xxStripes : List Byte → Nat × Nat × Nat × Nat → (Nat × Nat × Nat × Nat) × List Byte
  | a0 :: a1 :: a2 :: a3 :: b0 :: b1 :: b2 :: b3 ::
      c0 :: c1 :: c2 :: c3 :: d0 :: d1 :: d2 :: d3 :: rest, (v1, v2, v3, v4) =>
    xxStripes rest
      (xxRound v1 (le32 a0 a1 a2 a3), xxRound v2 (le32 b0 b1 b2 b3),
        xxRound v3 (le32 c0 c1 c2 c3), xxRound v4 (le32 d0 d1 d2 d3))
  | bs, vs => (vs, bs)

/-- Consume the single trailing bytes (fewer than 4 remain). -/
def xxTail1 : List Byte → Nat → Nat
  | [], h => h
  | b :: rest, h => xxTail1 rest ((rotl32 ((h + b * xxPrime5) % m32) 11 * xxPrime1) % m32)

/-- Consume trailing 4-byte words while at least 4 bytes remain, then the
single trailing bytes. -/
def xxTail4 : List Byte → Nat → Nat
  | a :: b :: c :: d :: rest, h =>
    xxTail4 rest ((rotl32 ((h + le32 a b c d * xxPrime3) % m32) 17 * xxPrime4) % m32)
  | bs, h => xxTail1 bs h

/-- The final xxHash32 avalanche. -/
def xxAvalanche (h : Nat) : Nat :=
  let h1 := (h ^^^ (h >>> 15)) % m32
  let h2 := (h1 * xxPrime2) % m32
  let h3 := (h2 ^^^ (h2 >>> 13)) % m32
  let h4 := (h3 * xxPrime3) % m32
  (h4 ^^^ (h4 >>> 16)) % m32

/-- xxHash32 of a byte sequence with the given seed. -/
def xxh32 (bytes : List Byte) (seed : Nat) : Nat :=
  let len := bytes.length
  let hrest :=
    if 16 ≤ len then
      let s := xxStripes bytes
        ((seed + xxPrime1 + xxPrime2) % m32, (seed + xxPrime2) % m32,
          seed % m32, (seed + (m32 - xxPrime1 % m32)) % m32)
      ((rotl32 s.1.1 1 + rotl32 s.1.2.1 7 + rotl32 s.1.2.2.1 12 + rotl32 s.1.2.2.2 18) % m32,
        s.2)
    else ((seed + xxPrime5) % m32, bytes)
  xxAvalanche (xxTail4 hrest.2 ((hrest.1 + len) % m32))

/-- UTF-8 encoding of one character (what `str::as_bytes` exposes). -/
def utf8EncodeChar (c : Char) : List Byte :=
  let n := c.toNat
  if n < 128 then [n]
  else if n < 2048 then [192 + n / 64, 128 + n % 64]
  else if n < 65536 then [224 + n / 4096, 128 + (n / 64) % 64, 128 + n % 64]
  else [240 + n / 262144, 128 + (n / 4096) % 64, 128 + (n / 64) % 64, 128 + n % 64]

/-- UTF-8 bytes of a string. -/
def utf8Bytes (s : String) : List Byte := (s.data.map utf8EncodeChar).flatten

/-- The hasher `convert_custom_key` (functions.rs lines 20-23): render the key through
its `Display` implementation, hash the UTF-8 bytes with xxHash32 at seed 0,
and render the 32-bit digest in decimal.  The generic `T: Display` key is
modelled by its type together with its display function. -/
def convert_custom_key {T : Type} (display : T → String) (key : T) : String :=
  Nat.repr (xxh32 (utf8Bytes (display key)) 0)

/-! ## JSON text rendering

A model of `simd_json::to_string` (compact output, serde-style string
escaping) on `Json`.  Output is the character sequence of the produced
text; every structural character is ASCII, so characters and bytes
coincide for the framing properties. -/

/-- The newline character (the frame delimiter, as a character). -/
def nlChar : Char := Char.ofNat 10

/-- Decimal digit character for `n < 10`. -/
def digitChar (n : Nat) : Char := Char.ofNat (48 + n)

/-- Lowercase hexadecimal digit character for `n < 16`. -/
def hexChar (n : Nat) : Char :=
  if n < 10 then Char.ofNat (48 + n) else Char.ofNat (87 + n)

/-- Decimal digits, fuelled so the recursion is structural; any fuel
above the argument produces the digits. -/
def natCharsAux : Nat → Nat → List Char
  | 0, _ => []
  | fuel + 1, n =>
    if n < 10 then [digitChar n]
    else natCharsAux fuel (n / 10) ++ [digitChar (n % 10)]

/-- Decimal digits of a natural number, most significant first. -/
def natChars (n : Nat) : List Char := natCharsAux (n + 1) n

/-- Decimal rendering of an integer. -/
def renderInt (i : Int) : List Char :=
  if i < 0 then '-' :: natChars i.natAbs else natChars i.toNat

/-- serde-style escape of one character inside a JSON string literal:
quote and backslash get a backslash escape, the named control characters
get their two-character escapes, all other control characters become
`\u00XX`, and everything else is emitted verbatim. -/
def escChar (c : Char) : List Char :=
  if c = quoteChar then [backslashChar, quoteChar]
  else if c = backslashChar then [backslashChar, backslashChar]
  else if c = Char.ofNat 8 then [backslashChar, 'b']
  else if c = Char.ofNat 9 then [backslashChar, 't']
  else if c = Char.ofNat 10 then [backslashChar, 'n']
  else if c = Char.ofNat 12 then [backslashChar, 'f']
  else if c = Char.ofNat 13 then [backslashChar, 'r']
  else if c.toNat < 32 then
    [backslashChar, 'u', '0', '0', hexChar (c.toNat / 16), hexChar (c.toNat % 16)]
  else [c]

/-- Escaped body of a JSON string literal. -/
def escapeChars (cs : List Char) : List Char := (cs.map escChar).flatten

/-- A JSON string literal: quote, escaped body, quote. -/
def renderString (s : String) : List Char :=
  quoteChar :: escapeChars s.data ++ [quoteChar]

/-- The four characters of the `null` keyword. -/
def nullChars : List Char := ['n', 'u', 'l', 'l']

/-- The four characters of the `true` keyword. -/
def trueChars : List Char := ['t', 'r', 'u', 'e']

/-- The five characters of the `false` keyword. -/
def falseChars : List Char := ['f', 'a', 'l', 's', 'e']

mutual

/-- Compact JSON text of a value. -/
def render : Json → List Char
  | .null => nullChars
  | .bool true => trueChars
  | .bool false => falseChars
  | .num n => renderInt n
  | .str s => renderString s
  | .arr xs => lbrackChar :: renderElems xs ++ [rbrackChar]
  | .obj kvs => lbraceChar :: renderFields kvs ++ [rbraceChar]

/-- Comma-separated rendering of array elements. -/
def renderElems : List Json → List Char
  | [] => []
  | [x] => render x
  | x :: y :: t => render x ++ ',' :: renderElems (y :: t)

/-- Comma-separated rendering of object members (`"key":value`). -/
def renderFields : List (String × Json) → List Char
  | [] => []
  | [(k, v)] => renderString k ++ ':' :: render v
  | (k, v) :: kv :: t => renderString k ++ ':' :: render v ++ ',' :: renderFields (kv :: t)

end

/-! ## JSON text parsing

A model of `simd_json::from_slice` on the texts the renderer produces:
recursive-descent over the character list, fuelled (each descent into a
subvalue consumes one unit), returning the parsed value and the unconsumed
remainder. -/

/-- Value of a hexadecimal digit character, if it is one. -/
def hexVal (c : Char) : Option Nat :=
  if 48 ≤ c.toNat ∧ c.toNat ≤ 57 then some (c.toNat - 48)
  else if 97 ≤ c.toNat ∧ c.toNat ≤ 102 then some (c.toNat - 87)
  else if 65 ≤ c.toNat ∧ c.toNat ≤ 70 then some (c.toNat - 55)
  else none

/-- Parse the body of a JSON string literal after the opening quote, up to
and including the closing quote; resolves the backslash escapes the
renderer can produce (plus the forward-slash escape). -/
def parseStringBody : List Char → Option (List Char × List Char)
  | [] => none
  | c :: r =>
    if c = quoteChar then some ([], r)
    else if c = backslashChar then
      match r with
      | [] => none
      | e :: r2 =>
        if e = quoteChar then (parseStringBody r2).map (fun p => (quoteChar :: p.1, p.2))
        else if e = backslashChar then
          (parseStringBody r2).map (fun p => (backslashChar :: p.1, p.2))
        else if e = '/' then (parseStringBody r2).map (fun p => ('/' :: p.1, p.2))
        else if e = 'b' then (parseStringBody r2).map (fun p => (Char.ofNat 8 :: p.1, p.2))
        else if e = 't' then (parseStringBody r2).map (fun p => (Char.ofNat 9 :: p.1, p.2))
        else if e = 'n' then (parseStringBody r2).map (fun p => (Char.ofNat 10 :: p.1, p.2))
        else if e = 'f' then (parseStringBody r2).map (fun p => (Char.ofNat 12 :: p.1, p.2))
        else if e = 'r' then (parseStringBody r2).map (fun p => (Char.ofNat 13 :: p.1, p.2))
        else if e = 'u' then
          match r2 with
          | h1 :: h2 :: h3 :: h4 :: r3 =>
            match hexVal h1, hexVal h2, hexVal h3, hexVal h4 with
            | some a, some b, some c, some d =>
              (parseStringBody r3).map
                (fun p => (Char.ofNat (a * 4096 + b * 256 + c * 16 + d) :: p.1, p.2))
            | _, _, _, _ => none
          | _ => none
        else none
    else (parseStringBody r).map (fun p => (c :: p.1, p.2))

/-- Consume a maximal run of decimal digits, accumulating their value. -/
def parseDigitsAux : List Char → Nat → Nat × List Char
  | [], acc => (acc, [])
  | c :: r, acc =>
    if c.isDigit then parseDigitsAux r (acc * 10 + (c.toNat - 48)) else (acc, c :: r)

/-- Consume an expected literal character sequence, returning the
remainder on success. -/
def expectChars : List Char → List Char → Option (List Char)
  | [], cs => some cs
  | _ :: _, [] => none
  | p :: ps, c :: cs => if c = p then expectChars ps cs else none

mutual

/-- Parse one JSON value. -/
def parseVal : Nat → List Char → Option (Json × List Char)
  | 0, _ => none
  | _ + 1, [] => none
  | fuel + 1, c :: cs =>
    if c = quoteChar then
      (parseStringBody cs).map (fun p => (Json.str (String.mk p.1), p.2))
    else if c = lbrackChar then
      if cs.head? = some rbrackChar then some (.arr [], cs.tail)
      else (parseElems fuel cs).map (fun p => (Json.arr p.1, p.2))
    else if c = lbraceChar then
      if cs.head? = some rbraceChar then some (.obj [], cs.tail)
      else (parseFields fuel cs).map (fun p => (Json.obj p.1, p.2))
    else if c = 'n' then
      (expectChars ['u', 'l', 'l'] cs).map (fun r => (Json.null, r))
    else if c = 't' then
      (expectChars ['r', 'u', 'e'] cs).map (fun r => (Json.bool true, r))
    else if c = 'f' then
      (expectChars ['a', 'l', 's', 'e'] cs).map (fun r => (Json.bool false, r))
    else if c = '-' then
      cs.head?.bind (fun d =>
        if d.isDigit then
          some (.num (-((parseDigitsAux cs.tail (d.toNat - 48)).1 : Int)),
            (parseDigitsAux cs.tail (d.toNat - 48)).2)
        else none)
    else if c.isDigit then
      let p := parseDigitsAux cs (c.toNat - 48)
      some (.num (p.1 : Int), p.2)
    else none

/-- Parse the elements of a non-empty array after the opening bracket, up
to and including the closing bracket. -/
def parseElems : Nat → List Char → Option (List Json × List Char)
  | 0, _ => none
  | fuel + 1, cs =>
    match parseVal fuel cs with
    | none => none
    | some (v, r) =>
      match r with
      | [] => none
      | c :: r2 =>
        if c = ',' then (parseElems fuel r2).map (fun p => (v :: p.1, p.2))
        else if c = rbrackChar then some ([v], r2)
        else none

/-- Parse the members of a non-empty object after the opening brace, up to
and including the closing brace. -/
def parseFields : Nat → List Char → Option (List (String × Json) × List Char)
  | 0, _ => none
  | fuel + 1, cs =>
    match cs with
    | [] => none
    | c :: cs2 =>
      if c = quoteChar then
        match parseStringBody cs2 with
        | none => none
        | some (k, r) =>
          match r with
          | [] => none
          | c2 :: r2 =>
            if c2 = ':' then
              match parseVal fuel r2 with
              | none => none
              | some (v, r3) =>
                match r3 with
                | [] => none
                | c3 :: r4 =>
                  if c3 = ',' then
                    (parseFields fuel r4).map (fun p => ((String.mk k, v) :: p.1, p.2))
                  else if c3 = rbraceChar then some ([(String.mk k, v)], r4)
                  else none
            else none
      else none

end

/-- Parse a character sequence as one complete JSON document: fuel is one
more than the input length, which the roundtrip lemmas show is always
sufficient for rendered output. -/
def parseJsonDoc (cs : List Char) : Option Json :=
  match parseVal (cs.length + 1) cs with
  | some (v, []) => some v
  | _ => none

/-! ## Request encoder: `src/request/structure.rs` and
`src/request/store_request/structure.rs`

`Req::byte_down` serializes either variant with `simd_json::to_string` and
appends one `\n` byte.  `IndexMap` and `HashMap` fields are modelled as
ordered association lists (for `HashMap` the list order stands for the
iteration order the serializer happened to see); `u64`/`usize` are `Nat`. -/

/-- The record `StoreRequestClient` (store_request/structure.rs lines 30-53), the flat
record of a store-operation request, fields in declaration order. -/
structure StoreRequestClient where
  schema : Option String
  username : String
  password : String
  keyspace : String
  store : String
  persistent : Bool
  distributed : Bool
  limit_output : List (String × Nat)
  key : Option String
  value : String
  command : String
  expire : Nat
  bulk_values : List String
  bulk_keys : List String
  bulk_keys_values : List (String × String)
  search_criteria : String
  with_pointers : Bool
  key_included : Bool
  volumes : List String
  latest_volume : Bool
  pointers_metadata : Bool
deriving Repr

/-- The request type `Req` (request/structure.rs lines 21-24): a raw ordered command map or
a boxed store record. -/
inductive Req where
  | Raw (map : List (String × List String))
  | Store (req : StoreRequestClient)
deriving Repr

/-- The constructor `Req::new_raw_command` (request/structure.rs lines 36-41): an
`IndexMap` holding `"raw" -> command` then `"credentials" -> credentials`,
in that insertion order. -/
def Req.new_raw_command (command credentials : List String) : Req :=
  .Raw [("raw", command), ("credentials", credentials)]

/-- serde encoding of an `Option<String>` field value. -/
def optStrJson : Option String → Json
  | none => .null
  | some s => .str s

/-- The JSON document serde/simd-json produce for a `Req` value: the raw
map serializes as an object of string arrays; the store record serializes
as a flat object with one member per field, in field order. -/
def reqToJson : Req → Json
  | .Raw m => .obj (m.map (fun kv => (kv.1, .arr (kv.2.map .str))))
  | .Store r =>
    .obj
      [("schema", optStrJson r.schema),
        ("username", .str r.username),
        ("password", .str r.password),
        ("keyspace", .str r.keyspace),
        ("store", .str r.store),
        ("persistent", .bool r.persistent),
        ("distributed", .bool r.distributed),
        ("limit_output", .obj (r.limit_output.map (fun kv => (kv.1, .num kv.2)))),
        ("key", optStrJson r.key),
        ("value", .str r.value),
        ("command", .str r.command),
        ("expire", .num r.expire),
        ("bulk_values", .arr (r.bulk_values.map .str)),
        ("bulk_keys", .arr (r.bulk_keys.map .str)),
        ("bulk_keys_values", .obj (r.bulk_keys_values.map (fun kv => (kv.1, .str kv.2)))),
        ("search_criteria", .str r.search_criteria),
        ("with_pointers", .bool r.with_pointers),
        ("key_included", .bool r.key_included),
        ("volumes", .arr (r.volumes.map .str)),
        ("latest_volume", .bool r.latest_volume),
        ("pointers_metadata", .bool r.pointers_metadata)]

/-- The serializer `Req::byte_down` (request/structure.rs lines 60-77): serialize the
active variant to its JSON text and push one final `\n`. -/
def Req.byteDown (req : Req) : List Char :=
  render (reqToJson req) ++ [nlChar]

/-! ## Auxiliary definitions used by the statements below -/

/-- The bytes a read event contributed to the accumulation buffer. -/
def oneShotData : OneShotRead → List Byte
  | .data d => d
  | .fail _ => []
  | .elapsed => []

/-- True when the character list does not begin with a decimal digit (the
boundary condition under which a rendered number is parsed back exactly). -/
def noLeadingDigit : List Char → Bool
  | [] => true
  | c :: _ => !c.isDigit

/-- The two-character text of an empty JSON object. -/
def braceStr : String := String.mk [lbraceChar, rbraceChar]

/-- An empty JSON object preceded by one space: valid JSON for any real
parser, but its first character is not a brace. -/
def spacedBraceStr : String := String.mk [' ', lbraceChar, rbraceChar]

/-- A concrete stand-in for the external JSON parser, agreeing with any
conformant parser on the inputs the counterexample uses: text that trims to
the empty-object text parses to the empty object. -/
def parseBraces (s : String) : Option Json :=
  if trimChars s.data = [lbraceChar, rbraceChar] then some (.obj []) else none

/-- A fully successful plain-TCP environment: no TLS feature, no TLS
request, every effect succeeds, no traces installed. -/
def plainEnv : NetEnv :=
  { tlsFeature := false, useTls := false, connectErr := none, serverNameErr := none,
    handshake := .ok, writeErr := none, flushErr := none, shutdownErr := none,
    stopPresent := false, callbackPresent := false, streamSteps := [], oneShotReads := [] }

/-- The ASCII bytes of a small query that does not contain `subscribe`. -/
def pingBytes : List Byte := [112, 105, 110, 103]

/-! # Theorems -/

/-! ## Transport control-flow lemmas -/

/-- The loop selector equals the `subscribe`-window test whenever the call
reaches the loops (write and flush succeeded). -/
theorem usedStreamLoop_eq_containsSubscribe (env : NetEnv) (q : List Byte)
    (hw : env.writeErr = none) (hf : env.flushErr = none) :
    (sendDataAfterConnect env q).usedStreamLoop = containsSubscribe q := by
  unfold sendDataAfterConnect
  rw [hw, hf]
  by_cases h : containsSubscribe q <;> simp only [h, if_true, if_false] <;>
    rcases hx :
        (streamLoop env.stopPresent env.callbackPresent env.streamSteps []).exit with
      _ | e | _ <;>
    rcases hs : env.shutdownErr with _ | e2 <;>
    simp [hx, hs] <;>
    rcases hy : (oneShotLoop env.oneShotReads []).2 with _ | e3 | _ <;> simp [hy]

/-- A length-9 window that matches the token forces the window test true. -/
theorem containsSubscribe_of_take (q : List Byte) (h : q.take 9 = subscribeBytes) :
    containsSubscribe q = true := by
  cases q with
  | nil => simp [subscribeBytes] at h
  | cons x t => simp [containsSubscribe, h]

/-- The test `containsSubscribe` is exactly the infix test for the token bytes. -/
theorem containsSubscribe_iff (q : List Byte) :
    containsSubscribe q = true ↔ ∃ a b, q = a ++ subscribeBytes ++ b := by
  constructor
  · intro h
    induction q with
    | nil => simp [containsSubscribe] at h
    | cons x t ih =>
      rw [containsSubscribe] at h
      rcases Bool.or_eq_true_iff.mp h with h1 | h2
      · refine ⟨[], (x :: t).drop 9, ?_⟩
        have := List.take_append_drop 9 (x :: t)
        rw [of_decide_eq_true h1] at this
        simpa using this.symm
      · obtain ⟨a, b, hab⟩ := ih h2
        exact ⟨x :: a, b, by simp [hab]⟩
  · rintro ⟨a, b, rfl⟩
    induction a with
    | nil => exact containsSubscribe_of_take _ (by rfl)
    | cons x a ih =>
      rw [show (x :: a) ++ subscribeBytes ++ b = x :: (a ++ subscribeBytes ++ b) by simp]
      rw [containsSubscribe, ih]
      simp

/-- The buffer the one-shot loop exits with is exactly the accumulation of
the data of some initial segment of the read events. -/
theorem oneShotLoop_buf_eq (evs : List OneShotRead) (acc : List Byte) :
    ∃ n, (oneShotLoop evs acc).1 = acc ++ ((evs.take n).map oneShotData).flatten := by
  induction evs generalizing acc with
  | nil => exact ⟨0, by simp [oneShotLoop]⟩
  | cons ev rest ih =>
    cases ev with
    | elapsed => exact ⟨0, by simp [oneShotLoop]⟩
    | fail e => exact ⟨0, by simp [oneShotLoop]⟩
    | data d =>
      by_cases hd : d = []
      · exact ⟨0, by simp [oneShotLoop, hd]⟩
      · by_cases hnl : nlByte ∈ acc ++ d
        · exact ⟨1, by simp [oneShotLoop, hd, hnl, oneShotData]⟩
        · obtain ⟨n, hn⟩ := ih (acc ++ d)
          exact ⟨n + 1, by simp [oneShotLoop, hd, hnl, oneShotData, hn]⟩

/-- With the pre-loop effects succeeding and a non-subscription query,
`send_data` runs the shared post-connect path. -/
theorem sendData_plain_eq (env : NetEnv) (q : List Byte)
    (hconn : env.connectErr = none) (htls : env.useTls = false)
    (hfeat : env.tlsFeature = false) :
    sendData env q = sendDataAfterConnect env q := by
  simp [sendData, hconn, htls, hfeat]

/-! ## C1 -/

/-- C1, counterexample.  The claim says a one-shot exchange whose stream
ends with a zero-byte read before any newline, with nothing accumulated,
returns `None`.  On the code, the one-shot branch always returns
`Ok(Some(buf))` (utils.rs line 198): an immediate clean close yields
`Some(empty buffer)`, never `None`. -/
theorem c1_counterexample :
    (sendData { plainEnv with oneShotReads := [.data []] } pingBytes).outcome
        = .ok (some [])
      ∧ (sendData { plainEnv with oneShotReads := [.data []] } pingBytes).outcome
        ≠ .ok none :=
  ⟨by rfl, by decide⟩

/-- C1, amended: in one-shot mode, whenever the read loop breaks (newline
seen or zero-byte read), `send_data` returns `Some(buffer)` with the bytes
accumulated from an initial segment of the reads — including
`Some(empty)` for an empty clean close; `None` is never returned in
one-shot mode (it is the streaming-mode return value). -/
theorem c1_oneShot_always_some (env : NetEnv) (q : List Byte)
    (hconn : env.connectErr = none) (htls : env.useTls = false)
    (hfeat : env.tlsFeature = false) (hw : env.writeErr = none)
    (hf : env.flushErr = none) (hsd : env.shutdownErr = none)
    (hsub : containsSubscribe q = false) :
    ((oneShotLoop env.oneShotReads []).2 = .normal →
        (sendData env q).outcome = .ok (some (oneShotLoop env.oneShotReads []).1))
      ∧ (sendData env q).outcome ≠ .ok none
      ∧ ∃ n, (oneShotLoop env.oneShotReads []).1
          = ((env.oneShotReads.take n).map oneShotData).flatten := by
  rw [sendData_plain_eq env q hconn htls hfeat]
  refine ⟨?_, ?_, ?_⟩
  · intro hx
    simp [sendDataAfterConnect, hw, hf, hsub, hx, hsd]
  · rcases hx : (oneShotLoop env.oneShotReads []).2 with _ | e | _ <;>
      simp [sendDataAfterConnect, hw, hf, hsub, hx, hsd]
  · obtain ⟨n, hn⟩ := oneShotLoop_buf_eq env.oneShotReads []
    exact ⟨n, by simpa using hn⟩

/-- C1 witness: a two-chunk exchange ending in a newline returns
`Some` of the concatenated bytes. -/
theorem c1_witness :
    (sendData { plainEnv with oneShotReads := [.data [104, 105, 10]] } pingBytes).outcome
      = .ok (some [104, 105, 10]) :=
  (c1_oneShot_always_some { plainEnv with oneShotReads := [.data [104, 105, 10]] }
      pingBytes rfl rfl rfl rfl rfl rfl (by decide)).1 (by decide)

/-! ## C3 -/

/-- C3: with the pre-loop effects succeeding, `send_data` runs the
streaming (subscription) loop exactly when the query bytes contain the
literal 9-byte token `subscribe` as an infix; otherwise it runs the
bounded one-shot loop. -/
theorem c3_mode_selection (env : NetEnv) (q : List Byte)
    (hconn : env.connectErr = none) (htls : env.useTls = false)
    (hfeat : env.tlsFeature = false) (hw : env.writeErr = none)
    (hf : env.flushErr = none) :
    (sendData env q).usedStreamLoop = true ↔ ∃ a b, q = a ++ subscribeBytes ++ b := by
  rw [sendData_plain_eq env q hconn htls hfeat,
    usedStreamLoop_eq_containsSubscribe env q hw hf, containsSubscribe_iff]

/-- C3 witness: a query consisting of the token itself selects the
streaming loop. -/
theorem c3_witness : (sendData plainEnv subscribeBytes).usedStreamLoop = true :=
  (c3_mode_selection plainEnv subscribeBytes rfl rfl rfl rfl rfl).mpr ⟨[], [], by simp⟩

/-! ## C6 -/

/-- C6: in a build without the TLS feature, requesting `use_tls` makes
`send_data` fail without ever attempting a write on the plaintext socket;
when the TCP connect itself succeeded, the failure is exactly the
configuration error `TLS feature not enabled` (utils.rs line 119), a
message produced by no socket-failure path. -/
theorem c6_tls_unavailable_config_error (env : NetEnv) (q : List Byte)
    (hfeat : env.tlsFeature = false) (htls : env.useTls = true) :
    (sendData env q).writeAttempted = false
      ∧ (env.connectErr = none →
          (sendData env q).outcome = .err ("TLS feature not enabled")) := by
  constructor
  · rcases hc : env.connectErr with _ | e <;> simp [sendData, hc, htls, hfeat]
  · intro hc
    simp [sendData, hc, htls, hfeat]

/-- C6 witness. -/
theorem c6_witness :
    (sendData { plainEnv with useTls := true } pingBytes).writeAttempted = false
      ∧ (sendData { plainEnv with useTls := true } pingBytes).outcome
        = .err ("TLS feature not enabled") :=
  ⟨(c6_tls_unavailable_config_error { plainEnv with useTls := true } pingBytes rfl rfl).1,
    (c6_tls_unavailable_config_error { plainEnv with useTls := true } pingBytes rfl rfl).2 rfl⟩

/-! ## C10 -/

/-- C10: in a build with the TLS feature compiled in, a `send_data` call
with `use_tls = false` opens the TCP connection but then fails with the
engine error `TLS stream not initialized` (utils.rs line 127) before any
request byte is written: plain-TCP exchanges are impossible in TLS
builds. -/
theorem c10_tls_build_refuses_plaintext (env : NetEnv) (q : List Byte)
    (hfeat : env.tlsFeature = true) (htls : env.useTls = false)
    (hconn : env.connectErr = none) :
    (sendData env q).connectAttempted = true
      ∧ (sendData env q).writeAttempted = false
      ∧ (sendData env q).outcome = .err ("TLS stream not initialized") := by
  simp [sendData, hconn, htls, hfeat]

/-- C10 witness. -/
theorem c10_witness :
    (sendData { plainEnv with tlsFeature := true } pingBytes).outcome
      = .err ("TLS stream not initialized") :=
  (c10_tls_build_refuses_plaintext { plainEnv with tlsFeature := true }
      pingBytes rfl rfl rfl).2.2

/-! ## C8 -/

/-- A timeout event reached by the one-shot loop (after reads that neither
closed the stream nor produced a newline) aborts the loop with the
timeout error, whatever events would have followed. -/
theorem oneShotLoop_timeout_fatal (pre post : List OneShotRead) (acc : List Byte)
    (hpre : ∀ ev ∈ pre, ∃ d, ev = .data d ∧ d ≠ [])
    (hnl : nlByte ∉ acc ++ (pre.map oneShotData).flatten) :
    (oneShotLoop (pre ++ .elapsed :: post) acc).2
      = .ioError ("deadline has elapsed") := by
  induction pre generalizing acc with
  | nil => simp [oneShotLoop]
  | cons ev pre ih =>
    obtain ⟨d, rfl, hd⟩ := hpre ev (by simp)
    have hnl1 : nlByte ∉ acc ++ d := by
      simp only [oneShotData, List.map_cons, List.flatten_cons, List.mem_append] at hnl ⊢
      tauto
    have hnl2 : nlByte ∉ (acc ++ d) ++ (pre.map oneShotData).flatten := by
      simp only [oneShotData, List.map_cons, List.flatten_cons, List.mem_append] at hnl ⊢
      tauto
    simpa [oneShotLoop, hd, hnl1] using
      ih (acc ++ d) (fun e he => hpre e (List.mem_cons_of_mem _ he)) hnl2

/-- C8: a 120-second timeout on any single one-shot read makes the whole
`send_data` call fail with the timeout error (`tokio::time::Elapsed`
displays as `deadline has elapsed`), regardless of what events would have
followed the timed-out read — the read is not retried and no silent
empty result is produced. -/
theorem c8_oneShot_timeout_error (env : NetEnv) (q : List Byte)
    (pre post : List OneShotRead)
    (hconn : env.connectErr = none) (htls : env.useTls = false)
    (hfeat : env.tlsFeature = false) (hw : env.writeErr = none)
    (hf : env.flushErr = none) (hsub : containsSubscribe q = false)
    (hreads : env.oneShotReads = pre ++ .elapsed :: post)
    (hpre : ∀ ev ∈ pre, ∃ d, ev = .data d ∧ d ≠ [])
    (hnl : nlByte ∉ (pre.map oneShotData).flatten) :
    (sendData env q).outcome = .err ("deadline has elapsed") := by
  have hx := oneShotLoop_timeout_fatal pre post [] hpre (by simpa using hnl)
  rw [sendData_plain_eq env q hconn htls hfeat]
  simp [sendDataAfterConnect, hw, hf, hsub, hreads, hx]

/-- C8 witness: an immediate timeout fails the call. -/
theorem c8_witness :
    (sendData { plainEnv with oneShotReads := [.elapsed] } pingBytes).outcome
      = .err ("deadline has elapsed") :=
  c8_oneShot_timeout_error { plainEnv with oneShotReads := [.elapsed] } pingBytes
    [] [] rfl rfl rfl rfl rfl (by decide) rfl (by simp) (by simp)

/-! ## C4 -/

/-- C4: in streaming mode, a read that leaves the buffer containing a
newline makes the loop invoke the callback exactly once, with the whole
buffer, and then clear the buffer before continuing; consequently a
stream of two chunks that each contain a newline (followed by the remote
closing) produces exactly the two callback invocations, one per chunk,
with no bytes carried from one to the other. -/
theorem c4_stream_callback_per_newline :
    (∀ (stopP : Bool) (rest : List StreamStep) (buf d : List Byte),
        d ≠ [] → nlByte ∈ buf ++ d →
        streamLoop stopP true (⟨false, .data d⟩ :: rest) buf
          = ⟨(buf ++ d) :: (streamLoop stopP true rest []).calls,
              (streamLoop stopP true rest []).readsDone + 1,
              (streamLoop stopP true rest []).exit⟩)
      ∧ ∀ (stopP : Bool) (l1 l2 : List Byte), l1 ≠ [] → l2 ≠ [] →
          nlByte ∈ l1 → nlByte ∈ l2 →
          (streamLoop stopP true
              [⟨false, .data l1⟩, ⟨false, .data l2⟩, ⟨false, .data []⟩] []).calls
              = [l1, l2]
            ∧ (streamLoop stopP true
                [⟨false, .data l1⟩, ⟨false, .data l2⟩, ⟨false, .data []⟩] []).exit
              = .normal := by
  constructor
  · intro stopP rest buf d hd hnl
    simp [streamLoop, hd, hnl]
  · intro stopP l1 l2 h1 h2 hn1 hn2
    constructor <;> simp [streamLoop, h1, h2, hn1, hn2]

/-- C4 witness: two newline-terminated chunks yield exactly their two
callback invocations. -/
theorem c4_witness :
    (streamLoop false true
        [⟨false, .data [65, 10]⟩, ⟨false, .data [66, 10]⟩, ⟨false, .data []⟩] []).calls
      = [[65, 10], [66, 10]] :=
  (c4_stream_callback_per_newline.2 false [65, 10] [66, 10]
      (by decide) (by decide) (by decide) (by decide)).1

/-! ## C5 -/

/-- C5: in streaming mode the cancellation token is polled once per loop
iteration, before the read.  An iteration that observes it set breaks
out at once: the pending read is not performed, no further callback is
invoked, and `send_data` then shuts the write half down and returns
`Ok(None)`; an iteration that does not observe it set performs exactly
one read. -/
theorem c5_cancel_before_read :
    (∀ (cb : Bool) (r : StreamRead) (rest : List StreamStep) (buf : List Byte),
        streamLoop true cb (⟨true, r⟩ :: rest) buf = ⟨[], 0, .normal⟩)
      ∧ (∀ (env : NetEnv) (q : List Byte),
          env.connectErr = none → env.useTls = false → env.tlsFeature = false →
          env.writeErr = none → env.flushErr = none → env.shutdownErr = none →
          env.stopPresent = true → containsSubscribe q = true →
          (∃ r rest, env.streamSteps = StreamStep.mk true r :: rest) →
          (sendData env q).calls = [] ∧ (sendData env q).shutdownAttempted = true
            ∧ (sendData env q).outcome = .ok none)
      ∧ ∀ (stopP cb cancel : Bool) (d : List Byte) (rest : List StreamStep)
          (buf : List Byte), (stopP && cancel) = false → d ≠ [] →
          (streamLoop stopP cb (⟨cancel, .data d⟩ :: rest) buf).readsDone
            = (streamLoop stopP cb rest
                (if nlByte ∈ buf ++ d then [] else buf ++ d)).readsDone + 1 := by
  refine ⟨?_, ?_, ?_⟩
  · intro cb r rest buf
    simp [streamLoop]
  · intro env q hconn htls hfeat hw hf hsd hstop hsub hsteps
    obtain ⟨r, rest, hs⟩ := hsteps
    have hloop : streamLoop env.stopPresent env.callbackPresent env.streamSteps []
        = ⟨[], 0, .normal⟩ := by
      rw [hs, hstop]
      simp [streamLoop]
    rw [sendData_plain_eq env q hconn htls hfeat]
    simp [sendDataAfterConnect, hw, hf, hsub, hloop, hsd]
  · intro stopP cb cancel d rest buf hc hd
    by_cases hnl : nlByte ∈ buf ++ d <;> simp [streamLoop, hc, hd, hnl]

/-- C5 witness: with the token observed set on the first iteration, the
call makes no callback invocations, shuts down, and returns `Ok(None)`. -/
theorem c5_witness :
    (sendData
        { plainEnv with stopPresent := true, streamSteps := [⟨true, .data [10]⟩] }
        subscribeBytes).calls = []
      ∧ (sendData
          { plainEnv with stopPresent := true, streamSteps := [⟨true, .data [10]⟩] }
          subscribeBytes).outcome = .ok none := by
  have h := c5_cancel_before_read.2.1
    { plainEnv with stopPresent := true, streamSteps := [⟨true, .data [10]⟩] }
    subscribeBytes rfl rfl rfl rfl rfl rfl rfl (by decide) ⟨.data [10], [], rfl⟩
  exact ⟨h.1, h.2.2⟩

/-! ## C9 -/

/-- The xxHash32 model agrees with the reference vector for the empty
input (0x02CC5D05). -/
theorem xxh32_empty_input : xxh32 [] 0 = 46947589 := by rfl

/-- The xxHash32 model agrees with the reference vector for `abc`
(0x32D153FF), exercising the short-input path. -/
theorem xxh32_abc : xxh32 (utf8Bytes ("abc")) 0 = 852579327 := by rfl

/-- The xxHash32 model agrees with the reference vector for the lowercase
alphabet (0x63A14D5F), exercising the 16-byte stripe path. -/
theorem xxh32_alphabet :
    xxh32 (utf8Bytes ("abcdefghijklmnopqrstuvwxyz")) 0 = 1671515487 := by rfl

/-- C9: the key hasher is a total, deterministic function of the key's
display string: two keys with equal display representations hash
identically, and the result is exactly the decimal rendering of the
xxHash32 (seed 0) digest of the display string's UTF-8 bytes. -/
theorem c9_key_hasher_deterministic :
    (∀ (T : Type) (display : T → String) (k1 k2 : T),
        display k1 = display k2 →
        convert_custom_key display k1 = convert_custom_key display k2)
      ∧ ∀ (T : Type) (display : T → String) (k : T),
          convert_custom_key display k = Nat.repr (xxh32 (utf8Bytes (display k)) 0) := by
  refine ⟨?_, fun T display k => rfl⟩
  intro T display k1 k2 h
  simp [convert_custom_key, h]

/-- C9 witness: two numeric keys with the same display string get the
same hash. -/
theorem c9_witness :
    convert_custom_key (fun n : Nat => Nat.repr n) 97
      = convert_custom_key (fun n : Nat => Nat.repr n) 97 :=
  c9_key_hasher_deterministic.1 Nat (fun n => Nat.repr n) 97 97 rfl

/-! ## C2 -/

/-- C2, counterexample.  The claim applies the delimiter test to the
*trimmed* string content; the code applies it to the raw content
(structure.rs lines 72-74: `s.starts_with('{') && s.ends_with('}')`).
On a payload string of one space then an open and a close brace - a string whose trimmed content is a well-formed JSON object,
and which the external parser parses successfully — the code leaves the
string untouched while the spec's normalizer unwraps it to the object. -/
theorem c2_counterexample :
    recursivelyParseJson parseBraces 5 (.str spacedBraceStr) = .str spacedBraceStr
      ∧ delimitedGuard spacedBraceStr = false
      ∧ delimitedGuard (String.mk (trimChars spacedBraceStr.data)) = true
      ∧ parseBraces spacedBraceStr = some (.obj [])
      ∧ recursivelyParseJsonSpecTrimmed parseBraces 5 (.str spacedBraceStr) = .obj []
      ∧ recursivelyParseJson parseBraces 5 (.str spacedBraceStr)
        ≠ recursivelyParseJsonSpecTrimmed parseBraces 5 (.str spacedBraceStr) := by
  refine ⟨by rfl, by rfl, by rfl, by rfl, by rfl, ?_⟩
  intro h
  rw [show recursivelyParseJson parseBraces 5 (.str spacedBraceStr)
        = .str spacedBraceStr from rfl,
    show recursivelyParseJsonSpecTrimmed parseBraces 5 (.str spacedBraceStr)
        = .obj [] from rfl] at h
  exact Json.noConfusion h

/-- C2, amended: the normalizer re-parses exactly those strings whose
*raw* (untrimmed) first and last characters are a matching brace or
bracket pair, replacing them by the parsed structure and normalizing it
recursively; a string failing the delimiter test or failing to re-parse
is returned unchanged; arrays and objects are walked element-wise /
field-wise; non-string scalars pass through unchanged. -/
theorem c2_normalizer_behaviour (parse : String → Option Json) (fuel : Nat) :
    (∀ s inner, delimitedGuard s = true → parse s = some inner →
        recursivelyParseJson parse (fuel + 1) (.str s)
          = recursivelyParseJson parse fuel inner)
      ∧ (∀ s, delimitedGuard s = true → parse s = none →
          recursivelyParseJson parse (fuel + 1) (.str s) = .str s)
      ∧ (∀ s, delimitedGuard s = false →
          recursivelyParseJson parse (fuel + 1) (.str s) = .str s)
      ∧ (∀ xs, recursivelyParseJson parse (fuel + 1) (.arr xs)
          = .arr (xs.map (recursivelyParseJson parse fuel)))
      ∧ (∀ kvs, recursivelyParseJson parse (fuel + 1) (.obj kvs)
          = .obj (kvs.map (fun kv => (kv.1, recursivelyParseJson parse fuel kv.2))))
      ∧ (∀ b, recursivelyParseJson parse (fuel + 1) (.bool b) = .bool b)
      ∧ (∀ n, recursivelyParseJson parse (fuel + 1) (.num n) = .num n)
      ∧ recursivelyParseJson parse (fuel + 1) .null = .null := by
  refine ⟨?_, ?_, ?_, fun xs => by simp [recursivelyParseJson],
    fun kvs => by simp [recursivelyParseJson], fun b => by simp [recursivelyParseJson],
    fun n => by simp [recursivelyParseJson], by simp [recursivelyParseJson]⟩
  · intro s inner hg hp
    simp [recursivelyParseJson, hg, hp]
  · intro s hg hp
    simp [recursivelyParseJson, hg, hp]
  · intro s hg
    simp [recursivelyParseJson, hg]

/-- C2 witness: a properly brace-delimited string that parses is
unwrapped to the parsed object. -/
theorem c2_witness : recursivelyParseJson parseBraces 1 (.str braceStr) = .obj [] :=
  ((c2_normalizer_behaviour parseBraces 0).1 braceStr (.obj [])
      (by rfl) (by rfl)).trans rfl

/-! ## C7: encode-decode roundtrip machinery -/

/-- Conversion `Char.ofNat` below the surrogate range recovers its argument. -/
theorem toNat_ofNat_small (n : Nat) (h : n < 55296) : (Char.ofNat n).toNat = n := by
  have hv : n.isValidChar := Or.inl h
  simp [Char.ofNat, hv, Char.ofNatAux, Char.toNat, UInt32.toNat, UInt32.ofNatTruncate]

/-- Rebuilding a string from its character list is the identity. -/
theorem string_mk_data (s : String) : String.mk s.data = s := by
  cases s
  rfl

/-- The facts about decimal digit characters the parser proofs use: a
digit character is a digit and is none of the parser's structural
characters. -/
theorem digitChar_facts (d : Nat) (h : d < 10) :
    (digitChar d).isDigit = true ∧ digitChar d ≠ quoteChar ∧ digitChar d ≠ lbrackChar
      ∧ digitChar d ≠ lbraceChar ∧ digitChar d ≠ 'n' ∧ digitChar d ≠ 't'
      ∧ digitChar d ≠ 'f' ∧ digitChar d ≠ '-' ∧ digitChar d ≠ rbrackChar
      ∧ digitChar d ≠ rbraceChar ∧ digitChar d ≠ ',' ∧ digitChar d ≠ ':'
      ∧ digitChar d ≠ nlChar ∧ (digitChar d).toNat = 48 + d := by
  interval_cases d <;> exact (by decide)

/-- The digit reader `hexVal` inverts `hexChar` on nibble values. -/
theorem hexVal_hexChar (m : Nat) (h : m < 16) : hexVal (hexChar m) = some m := by
  interval_cases m <;> exact (by decide)

/-- Hexadecimal digit characters are not the newline character. -/
theorem hexChar_ne_nl (m : Nat) (h : m < 16) : hexChar m ≠ nlChar := by
  interval_cases m <;> exact (by decide)

/-- Any sufficient fuel computes the same digits. -/
theorem natCharsAux_congr (n : Nat) : ∀ f, n < f → natCharsAux f n = natChars n := by
  induction n using Nat.strong_induction_on with
  | _ n ih =>
    intro f hf
    match f, hf with
    | g + 1, _ =>
      by_cases h10 : n < 10
      · simp [natCharsAux, natChars, h10]
      · have hd : n / 10 < n := Nat.div_lt_self (by omega) (by omega)
        have e1 : natCharsAux (g + 1) n = natCharsAux g (n / 10) ++ [digitChar (n % 10)] := by
          rw [natCharsAux]
          simp [h10]
        have e2 : natChars n = natCharsAux n (n / 10) ++ [digitChar (n % 10)] := by
          show natCharsAux (n + 1) n = _
          rw [natCharsAux]
          simp [h10]
        rw [e1, e2, ih (n / 10) hd g (by omega), ih (n / 10) hd n (by omega)]

/-- The defining recursion of `natChars`. -/
theorem natChars_eq (n : Nat) :
    natChars n
      = if n < 10 then [digitChar n] else natChars (n / 10) ++ [digitChar (n % 10)] := by
  have h1 : natChars n
      = if n < 10 then [digitChar n] else natCharsAux n (n / 10) ++ [digitChar (n % 10)] := by
    show natCharsAux (n + 1) n = _
    rw [natCharsAux]
  rw [h1]
  by_cases h10 : n < 10
  · simp [h10]
  · simp only [h10, if_false]
    rw [natCharsAux_congr (n / 10) n (by omega)]

/-- A digit run starts with a digit character. -/
theorem natChars_head (n : Nat) : ∃ d t, d < 10 ∧ natChars n = digitChar d :: t := by
  induction n using Nat.strong_induction_on with
  | _ n ih =>
    rw [natChars_eq]
    by_cases h10 : n < 10
    · exact ⟨n, [], h10, by simp [h10]⟩
    · obtain ⟨d, t, hd, ht⟩ := ih (n / 10) (Nat.div_lt_self (by omega) (by omega))
      exact ⟨d, t ++ [digitChar (n % 10)], hd, by simp [h10, ht]⟩

/-- Every character of a digit run is a digit character. -/
theorem natChars_all_digits (n : Nat) :
    ∀ c ∈ natChars n, ∃ d, d < 10 ∧ c = digitChar d := by
  induction n using Nat.strong_induction_on with
  | _ n ih =>
    intro c hc
    rw [natChars_eq] at hc
    by_cases h10 : n < 10
    · simp [h10] at hc
      exact ⟨n, h10, hc⟩
    · simp only [h10, if_false, List.mem_append, List.mem_singleton] at hc
      rcases hc with hc | hc
      · exact ih (n / 10) (Nat.div_lt_self (by omega) (by omega)) c hc
      · exact ⟨n % 10, by omega, hc⟩

/-- Consuming a rendered digit run from any accumulator. -/
theorem parseDigitsAux_natChars (n : Nat) : ∀ (rest : List Char) (acc : Nat),
    parseDigitsAux (natChars n ++ rest) acc
      = parseDigitsAux rest (acc * 10 ^ (natChars n).length + n) := by
  induction n using Nat.strong_induction_on with
  | _ n ih =>
    intro rest acc
    rw [natChars_eq]
    by_cases h10 : n < 10
    · simp only [h10, if_true, List.singleton_append, List.length_singleton]
      rw [parseDigitsAux]
      simp [(digitChar_facts n h10).1, (digitChar_facts n h10).2.2.2.2.2.2.2.2.2.2.2.2.2]
    · have hd : n / 10 < n := Nat.div_lt_self (by omega) (by omega)
      simp only [h10, if_false, List.append_assoc, List.singleton_append,
        List.length_append, List.length_singleton]
      rw [ih (n / 10) hd, parseDigitsAux]
      simp only [(digitChar_facts (n % 10) (by omega)).1, if_true,
        (digitChar_facts (n % 10) (by omega)).2.2.2.2.2.2.2.2.2.2.2.2.2]
      congr 1
      have hpow : 10 ^ ((natChars (n / 10)).length + 1)
          = 10 ^ (natChars (n / 10)).length * 10 := by ring
      have hmod : n % 10 + 48 - 48 = n % 10 := by omega
      rw [hpow]
      have := Nat.div_add_mod n 10
      ring_nf
      omega

/-- A maximal digit run ends at a non-digit boundary. -/
theorem parseDigitsAux_boundary (rest : List Char) (acc : Nat)
    (h : noLeadingDigit rest = true) : parseDigitsAux rest acc = (acc, rest) := by
  cases rest with
  | nil => simp [parseDigitsAux]
  | cons c r =>
    simp only [noLeadingDigit, Bool.not_eq_true'] at h
    simp [parseDigitsAux, h]

/-- Rendered digits parse back to the rendered number. -/
theorem parseDigits_natChars (n : Nat) (rest : List Char)
    (h : noLeadingDigit rest = true) :
    parseDigitsAux (natChars n ++ rest) 0 = (n, rest) := by
  rw [parseDigitsAux_natChars, parseDigitsAux_boundary rest _ h]
  simp

/-- Unescaping a rendered `\u00XY` escape. -/
theorem parseStringBody_u (h3 h4 : Char) (tail : List Char) (a b : Nat)
    (ha : hexVal h3 = some a) (hb : hexVal h4 = some b) :
    parseStringBody (backslashChar :: 'u' :: '0' :: '0' :: h3 :: h4 :: tail)
      = (parseStringBody tail).map (fun p => (Char.ofNat (a * 16 + b) :: p.1, p.2)) := by
  simp [parseStringBody, ha, hb, show backslashChar ≠ quoteChar from by decide,
    show ('u' : Char) ≠ quoteChar from by decide,
    show ('u' : Char) ≠ backslashChar from by decide,
    show hexVal '0' = some 0 from by decide]

/-- The backslash character is not the quote character. -/
theorem bs_ne_quote : backslashChar ≠ quoteChar := by decide

/-- Unescaping inverts the escaping of a single character. -/
theorem parseStringBody_escChar (c : Char) (tail : List Char) :
    parseStringBody (escChar c ++ tail)
      = (parseStringBody tail).map (fun p => (c :: p.1, p.2)) := by
  by_cases h1 : c = quoteChar
  · subst h1
    rw [show escChar quoteChar ++ tail = backslashChar :: quoteChar :: tail from rfl,
      parseStringBody.eq_def]
    simp [bs_ne_quote]
  by_cases h2 : c = backslashChar
  · subst h2
    rw [show escChar backslashChar ++ tail = backslashChar :: backslashChar :: tail from rfl,
      parseStringBody.eq_def]
    simp [bs_ne_quote]
  by_cases h3 : c = Char.ofNat 8
  · subst h3
    rw [show escChar (Char.ofNat 8) ++ tail = backslashChar :: 'b' :: tail from rfl,
      parseStringBody.eq_def]
    simp [bs_ne_quote, show ('b' : Char) ≠ quoteChar from by decide,
      show ('b' : Char) ≠ backslashChar from by decide]
  by_cases h4 : c = Char.ofNat 9
  · subst h4
    rw [show escChar (Char.ofNat 9) ++ tail = backslashChar :: 't' :: tail from rfl,
      parseStringBody.eq_def]
    simp [bs_ne_quote, show ('t' : Char) ≠ quoteChar from by decide,
      show ('t' : Char) ≠ backslashChar from by decide]
  by_cases h5 : c = Char.ofNat 10
  · subst h5
    rw [show escChar (Char.ofNat 10) ++ tail = backslashChar :: 'n' :: tail from rfl,
      parseStringBody.eq_def]
    simp [bs_ne_quote, show ('n' : Char) ≠ quoteChar from by decide,
      show ('n' : Char) ≠ backslashChar from by decide]
  by_cases h6 : c = Char.ofNat 12
  · subst h6
    rw [show escChar (Char.ofNat 12) ++ tail = backslashChar :: 'f' :: tail from rfl,
      parseStringBody.eq_def]
    simp [bs_ne_quote, show ('f' : Char) ≠ quoteChar from by decide,
      show ('f' : Char) ≠ backslashChar from by decide]
  by_cases h7 : c = Char.ofNat 13
  · subst h7
    rw [show escChar (Char.ofNat 13) ++ tail = backslashChar :: 'r' :: tail from rfl,
      parseStringBody.eq_def]
    simp [bs_ne_quote, show ('r' : Char) ≠ quoteChar from by decide,
      show ('r' : Char) ≠ backslashChar from by decide]
  by_cases h8 : c.toNat < 32
  · have hesc : escChar c = [backslashChar, 'u', '0', '0',
        hexChar (c.toNat / 16), hexChar (c.toNat % 16)] := by
      simp [escChar, h1, h2, h3, h4, h5, h6, h7, h8]
    rw [hesc, List.cons_append, List.cons_append, List.cons_append, List.cons_append,
      List.cons_append, List.singleton_append,
      parseStringBody_u _ _ _ _ _ (hexVal_hexChar _ (by omega)) (hexVal_hexChar _ (by omega))]
    have harith : c.toNat / 16 * 16 + c.toNat % 16 = c.toNat := by omega
    rw [harith, Char.ofNat_toNat]
  · have hesc : escChar c = [c] := by
      simp [escChar, h1, h2, h3, h4, h5, h6, h7, h8]
    rw [hesc, List.singleton_append, parseStringBody.eq_def]
    simp [h1, h2]

/-- Unescaping inverts escaping: the rendered body of a string literal
parses back to the original characters, consuming the closing quote. -/
theorem parseStringBody_escape (cs : List Char) (rest : List Char) :
    parseStringBody (escapeChars cs ++ quoteChar :: rest) = some (cs, rest) := by
  induction cs with
  | nil =>
    rw [show escapeChars [] ++ quoteChar :: rest = quoteChar :: rest from rfl,
      parseStringBody.eq_def]
    simp
  | cons c cs ih =>
    have h1 : escapeChars (c :: cs) = escChar c ++ escapeChars cs := by
      simp [escapeChars]
    rw [h1, List.append_assoc, parseStringBody_escChar c _, ih]
    rfl

/-- Rendered values are non-empty and never start with a closing
bracket. -/
theorem render_cons (v : Json) : ∃ c t, render v = c :: t ∧ c ≠ rbrackChar := by
  cases v with
  | null => exact ⟨'n', ['u', 'l', 'l'], rfl, by decide⟩
  | bool b => cases b with
    | true => exact ⟨'t', ['r', 'u', 'e'], rfl, by decide⟩
    | false => exact ⟨'f', ['a', 'l', 's', 'e'], rfl, by decide⟩
  | num i =>
    by_cases hi : i < 0
    · exact ⟨'-', natChars i.natAbs, by simp [render, renderInt, hi], by decide⟩
    · obtain ⟨d, t, hd, ht⟩ := natChars_head i.toNat
      exact ⟨digitChar d, t, by simp [render, renderInt, hi, ht],
        (digitChar_facts d hd).2.2.2.2.2.2.2.2.1⟩
  | str s =>
    exact ⟨quoteChar, escapeChars s.data ++ [quoteChar], by simp [render, renderString],
      by decide⟩
  | arr xs => exact ⟨lbrackChar, renderElems xs ++ [rbrackChar], by simp [render], by decide⟩
  | obj kvs => exact ⟨lbraceChar, renderFields kvs ++ [rbraceChar], by simp [render], by decide⟩

/-- Structural induction over the nested `Json` type: member-wise
hypotheses for arrays and objects. -/
theorem json_ind (P : Json → Prop) (hnull : P .null) (hbool : ∀ b, P (.bool b))
    (hnum : ∀ n, P (.num n)) (hstr : ∀ s, P (.str s))
    (harr : ∀ xs, (∀ x ∈ xs, P x) → P (.arr xs))
    (hobj : ∀ kvs, (∀ kv ∈ kvs, P kv.2) → P (.obj kvs)) : ∀ v, P v := by
  have H : ∀ n (w : Json), sizeOf w ≤ n → P w := by
    intro n
    induction n with
    | zero =>
      intro w hw
      exfalso
      cases w <;> simp at hw
    | succ n ih =>
      intro w hw
      cases w with
      | null => exact hnull
      | bool b => exact hbool b
      | num m => exact hnum m
      | str s => exact hstr s
      | arr xs =>
        refine harr xs fun x hx => ih x ?_
        have h1 : sizeOf x < sizeOf xs := List.sizeOf_lt_of_mem hx
        have h2 : sizeOf (Json.arr xs) = 1 + sizeOf xs := by simp
        omega
      | obj kvs =>
        refine hobj kvs fun kv hkv => ih kv.2 ?_
        have h1 : sizeOf kv < sizeOf kvs := List.sizeOf_lt_of_mem hkv
        have h2 : sizeOf kv.2 < sizeOf kv := by
          obtain ⟨k, v2⟩ := kv
          have : sizeOf (k, v2) = 1 + sizeOf k + sizeOf v2 := by simp
          simp only [this]
          omega
        have h3 : sizeOf (Json.obj kvs) = 1 + sizeOf kvs := by simp
        omega
  exact fun v => H (sizeOf v) v (Nat.le_refl _)

/-- Escaping one character never produces a raw newline. -/
theorem nl_not_mem_escChar (c : Char) : nlChar ∉ escChar c := by
  by_cases h1 : c = quoteChar
  · subst h1; decide
  by_cases h2 : c = backslashChar
  · subst h2; decide
  by_cases h3 : c = Char.ofNat 8
  · subst h3; decide
  by_cases h4 : c = Char.ofNat 9
  · subst h4; decide
  by_cases h5 : c = Char.ofNat 10
  · subst h5; decide
  by_cases h6 : c = Char.ofNat 12
  · subst h6; decide
  by_cases h7 : c = Char.ofNat 13
  · subst h7; decide
  by_cases h8 : c.toNat < 32
  · have hesc : escChar c = [backslashChar, 'u', '0', '0',
        hexChar (c.toNat / 16), hexChar (c.toNat % 16)] := by
      simp [escChar, h1, h2, h3, h4, h5, h6, h7, h8]
    rw [hesc]
    intro hmem
    simp only [List.mem_cons, List.mem_singleton, List.not_mem_nil, or_false] at hmem
    rcases hmem with h | h | h | h | h | h
    · exact absurd h (by decide)
    · exact absurd h (by decide)
    · exact absurd h (by decide)
    · exact absurd h (by decide)
    · exact hexChar_ne_nl _ (by omega) h.symm
    · exact hexChar_ne_nl _ (by omega) h.symm
  · have hesc : escChar c = [c] := by
      simp [escChar, h1, h2, h3, h4, h5, h6, h7, h8]
    rw [hesc]
    simp only [List.mem_singleton]
    exact fun he => h5 he.symm

/-- Escaping never produces a raw newline. -/
theorem nl_not_mem_escapeChars (cs : List Char) : nlChar ∉ escapeChars cs := by
  induction cs with
  | nil => simp [escapeChars]
  | cons c cs ih =>
    have he : escapeChars (c :: cs) = escChar c ++ escapeChars cs := by simp [escapeChars]
    rw [he]
    intro hm
    rcases List.mem_append.mp hm with h | h
    · exact nl_not_mem_escChar c h
    · exact ih h

/-- A rendered string literal contains no raw newline. -/
theorem nl_not_mem_renderString (s : String) : nlChar ∉ renderString s := by
  intro hm
  rw [renderString] at hm
  rcases List.mem_cons.mp hm with h | h
  · exact absurd h (by decide)
  · rcases List.mem_append.mp h with h | h
    · exact nl_not_mem_escapeChars _ h
    · simp only [List.mem_singleton] at h
      exact absurd h (by decide)

/-- Digit runs contain no newline. -/
theorem nl_not_mem_natChars (n : Nat) : nlChar ∉ natChars n := by
  intro hm
  obtain ⟨d, hd, hc⟩ := natChars_all_digits n nlChar hm
  exact (digitChar_facts d hd).2.2.2.2.2.2.2.2.2.2.2.2.1 hc.symm

/-- Rendered integers contain no newline. -/
theorem nl_not_mem_renderInt (i : Int) : nlChar ∉ renderInt i := by
  rw [renderInt]
  by_cases hi : i < 0
  · simp only [hi, if_true]
    intro hm
    rcases List.mem_cons.mp hm with h | h
    · exact absurd h (by decide)
    · exact nl_not_mem_natChars _ h
  · simp only [hi, if_false]
    exact nl_not_mem_natChars _

/-- A non-empty comma-separated element rendering contains no newline
when none of the element renderings do. -/
theorem nl_not_mem_renderElems (xs : List Json)
    (h : ∀ x ∈ xs, nlChar ∉ render x) : nlChar ∉ renderElems xs := by
  induction xs with
  | nil => simp [renderElems]
  | cons x t ih =>
    cases t with
    | nil => simpa [renderElems] using h x (by simp)
    | cons y t2 =>
      have he : renderElems (x :: y :: t2) = render x ++ ',' :: renderElems (y :: t2) := by
        simp [renderElems]
      rw [he]
      intro hm
      rcases List.mem_append.mp hm with hx | hx
      · exact h x (by simp) hx
      · rcases List.mem_cons.mp hx with hc | hc
        · exact absurd hc (by decide)
        · exact ih (fun z hz => h z (List.mem_cons_of_mem _ hz)) hc

/-- A non-empty member rendering contains no newline when none of the
member value renderings do. -/
theorem nl_not_mem_renderFields (kvs : List (String × Json))
    (h : ∀ kv ∈ kvs, nlChar ∉ render kv.2) : nlChar ∉ renderFields kvs := by
  induction kvs with
  | nil => simp [renderFields]
  | cons kv t ih =>
    obtain ⟨k, v⟩ := kv
    cases t with
    | nil =>
      have he : renderFields [(k, v)] = renderString k ++ ':' :: render v := by
        simp [renderFields]
      rw [he]
      intro hm
      rcases List.mem_append.mp hm with hx | hx
      · exact nl_not_mem_renderString k hx
      · rcases List.mem_cons.mp hx with hc | hc
        · exact absurd hc (by decide)
        · exact h (k, v) (by simp) hc
    | cons kv2 t2 =>
      have he : renderFields ((k, v) :: kv2 :: t2)
          = renderString k ++ ':' :: render v ++ ',' :: renderFields (kv2 :: t2) := by
        simp [renderFields]
      rw [he]
      intro hm
      rcases List.mem_append.mp hm with hx | hx
      · rcases List.mem_append.mp hx with hy | hy
        · exact nl_not_mem_renderString k hy
        · rcases List.mem_cons.mp hy with hz | hz
          · exact absurd hz (by decide)
          · exact h (k, v) (by simp) hz
      · rcases List.mem_cons.mp hx with hc | hc
        · exact absurd hc (by decide)
        · exact ih (fun z hz2 => h z (List.mem_cons_of_mem _ hz2)) hc

/-- Rendered JSON contains no raw newline: the `\n` frame delimiter can
never occur inside the serialized document. -/
theorem nl_not_mem_render (v : Json) : nlChar ∉ render v := by
  refine json_ind (fun v => nlChar ∉ render v) ?_ ?_ ?_ ?_ ?_ ?_ v
  · simp [render]
    decide
  · intro b
    cases b <;> simp [render] <;> decide
  · intro n
    simpa [render] using nl_not_mem_renderInt n
  · intro s
    simpa [render] using nl_not_mem_renderString s
  · intro xs hxs
    rw [show render (.arr xs) = lbrackChar :: renderElems xs ++ [rbrackChar] from by
      simp [render]]
    intro hm
    rcases List.mem_cons.mp hm with h | h
    · exact absurd h (by decide)
    · rcases List.mem_append.mp h with h | h
      · exact nl_not_mem_renderElems xs hxs h
      · simp only [List.mem_singleton] at h
        exact absurd h (by decide)
  · intro kvs hkvs
    rw [show render (.obj kvs) = lbraceChar :: renderFields kvs ++ [rbraceChar] from by
      simp [render]]
    intro hm
    rcases List.mem_cons.mp hm with h | h
    · exact absurd h (by decide)
    · rcases List.mem_append.mp h with h | h
      · exact nl_not_mem_renderFields kvs hkvs h
      · simp only [List.mem_singleton] at h
        exact absurd h (by decide)

/-- Parsing a quoted string literal defers to the string body
parser. -/
theorem parseVal_quote (fuel : Nat) (X : List Char) :
    parseVal (fuel + 1) (quoteChar :: X)
      = (parseStringBody X).map (fun p => (Json.str (String.mk p.1), p.2)) := by
  simp only [parseVal]
  simp

/-- A rendered string literal parses back to the string. -/
theorem parseVal_str (fuel : Nat) (s : String) (rest : List Char) :
    parseVal (fuel + 1) (renderString s ++ rest) = some (.str s, rest) := by
  rw [show renderString s ++ rest
      = quoteChar :: (escapeChars s.data ++ quoteChar :: rest) from by
    simp [renderString]]
  rw [parseVal_quote, parseStringBody_escape]
  simp [string_mk_data]

/-- Parsing a non-empty array opening defers to the element
parser. -/
theorem parseVal_arr_nonempty (fuel : Nat) (X : List Char)
    (hd : X.head? ≠ some rbrackChar) :
    parseVal (fuel + 1) (lbrackChar :: X)
      = (parseElems fuel X).map (fun p => (Json.arr p.1, p.2)) := by
  simp only [parseVal]
  simp [hd, show lbrackChar ≠ quoteChar from by decide]

/-- An empty array parses back. -/
theorem parseVal_arr_nil (fuel : Nat) (rest : List Char) :
    parseVal (fuel + 1) (lbrackChar :: rbrackChar :: rest) = some (.arr [], rest) := by
  simp only [parseVal]
  simp [show lbrackChar ≠ quoteChar from by decide]

/-- Parsing a non-empty object opening defers to the member
parser. -/
theorem parseVal_obj_nonempty (fuel : Nat) (X : List Char)
    (hd : X.head? ≠ some rbraceChar) :
    parseVal (fuel + 1) (lbraceChar :: X)
      = (parseFields fuel X).map (fun p => (Json.obj p.1, p.2)) := by
  simp only [parseVal]
  simp [hd, show lbraceChar ≠ quoteChar from by decide,
    show lbraceChar ≠ lbrackChar from by decide]

/-- An empty object parses back. -/
theorem parseVal_obj_nil (fuel : Nat) (rest : List Char) :
    parseVal (fuel + 1) (lbraceChar :: rbraceChar :: rest) = some (.obj [], rest) := by
  simp only [parseVal]
  simp [show lbraceChar ≠ quoteChar from by decide,
    show lbraceChar ≠ lbrackChar from by decide]

/-- The `null` keyword parses back. -/
theorem parseVal_null (fuel : Nat) (rest : List Char) :
    parseVal (fuel + 1) ('n' :: 'u' :: 'l' :: 'l' :: rest) = some (.null, rest) := by
  simp only [parseVal]
  simp [expectChars, show ('n' : Char) ≠ quoteChar from by decide,
    show ('n' : Char) ≠ lbrackChar from by decide,
    show ('n' : Char) ≠ lbraceChar from by decide]

/-- The `true` keyword parses back. -/
theorem parseVal_true (fuel : Nat) (rest : List Char) :
    parseVal (fuel + 1) ('t' :: 'r' :: 'u' :: 'e' :: rest) = some (.bool true, rest) := by
  simp only [parseVal]
  simp [expectChars, show ('t' : Char) ≠ quoteChar from by decide,
    show ('t' : Char) ≠ lbrackChar from by decide,
    show ('t' : Char) ≠ lbraceChar from by decide]

/-- The `false` keyword parses back. -/
theorem parseVal_false (fuel : Nat) (rest : List Char) :
    parseVal (fuel + 1) ('f' :: 'a' :: 'l' :: 's' :: 'e' :: rest)
      = some (.bool false, rest) := by
  simp only [parseVal]
  simp [expectChars, show ('f' : Char) ≠ quoteChar from by decide,
    show ('f' : Char) ≠ lbrackChar from by decide,
    show ('f' : Char) ≠ lbraceChar from by decide]

/-- Consuming a rendered digit run after its first digit. -/
theorem parseDigitsAux_step (n : Nat) (rest : List Char) (d : Nat) (t : List Char)
    (hd : d < 10) (hn : natChars n = digitChar d :: t)
    (hrest : noLeadingDigit rest = true) :
    parseDigitsAux (t ++ rest) ((digitChar d).toNat - 48) = (n, rest) := by
  have h0 := parseDigits_natChars n rest hrest
  rw [hn, List.cons_append, parseDigitsAux] at h0
  simpa [(digitChar_facts d hd).1] using h0

/-- A rendered natural number parses back. -/
theorem parseVal_nat (fuel : Nat) (n : Nat) (rest : List Char)
    (hrest : noLeadingDigit rest = true) :
    parseVal (fuel + 1) (natChars n ++ rest) = some (.num (n : Int), rest) := by
  obtain ⟨d, t, hd, hn⟩ := natChars_head n
  have hstep := parseDigitsAux_step n rest d t hd hn hrest
  rw [hn, List.cons_append]
  simp only [parseVal]
  have hf := digitChar_facts d hd
  simp [hf.1, hf.2.1, hf.2.2.1, hf.2.2.2.1, hf.2.2.2.2.1, hf.2.2.2.2.2.1,
    hf.2.2.2.2.2.2.1, hf.2.2.2.2.2.2.2.1, hstep]

/-- A rendered negative integer parses back. -/
theorem parseVal_neg (fuel : Nat) (n : Nat) (rest : List Char)
    (hrest : noLeadingDigit rest = true) :
    parseVal (fuel + 1) ('-' :: (natChars n ++ rest)) = some (.num (-(n : Int)), rest) := by
  obtain ⟨d, t, hd, hn⟩ := natChars_head n
  have hstep := parseDigitsAux_step n rest d t hd hn hrest
  rw [hn, List.cons_append]
  simp only [parseVal]
  have hf := digitChar_facts d hd
  simp [show ('-' : Char) ≠ quoteChar from by decide,
    show ('-' : Char) ≠ lbrackChar from by decide,
    show ('-' : Char) ≠ lbraceChar from by decide, hf.1, hstep]

/-- A rendered integer parses back. -/
theorem parseVal_num (fuel : Nat) (i : Int) (rest : List Char)
    (hrest : noLeadingDigit rest = true) :
    parseVal (fuel + 1) (renderInt i ++ rest) = some (.num i, rest) := by
  rw [renderInt]
  by_cases hi : i < 0
  · simp only [hi, if_true, List.cons_append]
    rw [parseVal_neg fuel i.natAbs rest hrest]
    congr
    omega
  · simp only [hi, if_false]
    rw [parseVal_nat fuel i.toNat rest hrest]
    congr
    omega

/-- A list starting with a non-digit character is a valid number
boundary. -/
theorem noLead_cons (c : Char) (rest : List Char) (h : c.isDigit = false) :
    noLeadingDigit (c :: rest) = true := by
  simp [noLeadingDigit, h]

/-- The roundtrip induction: with fuel above the rendered length, the
parser consumes exactly the rendered text of a value (or of a non-empty
element/member list up to its closing delimiter) and returns the value. -/
theorem parse_render_all (fuel : Nat) :
    (∀ v rest, (render v).length < fuel → noLeadingDigit rest = true →
        parseVal fuel (render v ++ rest) = some (v, rest))
      ∧ (∀ xs rest, xs ≠ [] → (renderElems xs).length + 1 < fuel →
          parseElems fuel (renderElems xs ++ rbrackChar :: rest) = some (xs, rest))
      ∧ (∀ kvs rest, kvs ≠ [] → (renderFields kvs).length + 1 < fuel →
          parseFields fuel (renderFields kvs ++ rbraceChar :: rest) = some (kvs, rest)) := by
  induction fuel with
  | zero =>
    exact ⟨fun v rest h _ => absurd h (by omega),
      fun xs rest _ h => absurd h (by omega),
      fun kvs rest _ h => absurd h (by omega)⟩
  | succ fuel ih =>
    obtain ⟨ihV, ihE, ihF⟩ := ih
    refine ⟨?_, ?_, ?_⟩
    · intro v rest hlen hrest
      cases v with
      | null =>
        rw [show render Json.null = ['n', 'u', 'l', 'l'] from rfl]
        exact parseVal_null fuel rest
      | bool b =>
        cases b with
        | false =>
          rw [show render (Json.bool false) = ['f', 'a', 'l', 's', 'e'] from rfl]
          exact parseVal_false fuel rest
        | true =>
          rw [show render (Json.bool true) = ['t', 'r', 'u', 'e'] from rfl]
          exact parseVal_true fuel rest
      | num i =>
        rw [show render (Json.num i) = renderInt i from by simp [render]]
        exact parseVal_num fuel i rest hrest
      | str s =>
        rw [show render (Json.str s) = renderString s from by simp [render]]
        exact parseVal_str fuel s rest
      | arr xs =>
        cases xs with
        | nil =>
          rw [show render (Json.arr []) ++ rest = lbrackChar :: rbrackChar :: rest from by
            simp [render, renderElems]]
          exact parseVal_arr_nil fuel rest
        | cons x t =>
          obtain ⟨tl, htl⟩ : ∃ tl, renderElems (x :: t) = render x ++ tl := by
            cases t with
            | nil => exact ⟨[], by simp [renderElems]⟩
            | cons y t2 => exact ⟨',' :: renderElems (y :: t2), by simp [renderElems]⟩
          obtain ⟨c0, t0, hc0, hne⟩ := render_cons x
          rw [show render (Json.arr (x :: t)) ++ rest
              = lbrackChar :: (renderElems (x :: t) ++ rbrackChar :: rest) from by
            simp [render]]
          have hhd : (renderElems (x :: t) ++ rbrackChar :: rest).head?
              ≠ some rbrackChar := by
            rw [htl, hc0]
            simpa using hne
          rw [parseVal_arr_nonempty fuel _ hhd]
          have hlen2 : (renderElems (x :: t)).length + 1 < fuel := by
            have h2 : (render (Json.arr (x :: t))).length
                = (renderElems (x :: t)).length + 2 := by
              simp [render]
            omega
          rw [ihE (x :: t) rest (by simp) hlen2]
          rfl
      | obj kvs =>
        cases kvs with
        | nil =>
          rw [show render (Json.obj []) ++ rest = lbraceChar :: rbraceChar :: rest from by
            simp [render, renderFields]]
          exact parseVal_obj_nil fuel rest
        | cons kv t =>
          obtain ⟨k, v1⟩ := kv
          obtain ⟨tl, htl⟩ : ∃ tl, renderFields ((k, v1) :: t) = renderString k ++ tl := by
            cases t with
            | nil => exact ⟨':' :: render v1, by simp [renderFields]⟩
            | cons kv2 t2 =>
              exact ⟨':' :: render v1 ++ ',' :: renderFields (kv2 :: t2), by
                simp [renderFields]⟩
          rw [show render (Json.obj ((k, v1) :: t)) ++ rest
              = lbraceChar :: (renderFields ((k, v1) :: t) ++ rbraceChar :: rest) from by
            simp [render]]
          have hhd : (renderFields ((k, v1) :: t) ++ rbraceChar :: rest).head?
              ≠ some rbraceChar := by
            rw [htl, show renderString k
                = quoteChar :: (escapeChars k.data ++ [quoteChar]) from by
              simp [renderString]]
            simp
            decide
          rw [parseVal_obj_nonempty fuel _ hhd]
          have hlen2 : (renderFields ((k, v1) :: t)).length + 1 < fuel := by
            have h2 : (render (Json.obj ((k, v1) :: t))).length
                = (renderFields ((k, v1) :: t)).length + 2 := by
              simp [render]
            omega
          rw [ihF ((k, v1) :: t) rest (by simp) hlen2]
          rfl
    · intro xs rest hne hlen
      cases xs with
      | nil => exact absurd rfl hne
      | cons x t =>
        cases t with
        | nil =>
          have he : renderElems [x] = render x := by simp [renderElems]
          rw [he] at hlen ⊢
          simp only [parseElems]
          rw [ihV x (rbrackChar :: rest) (by omega) (noLead_cons _ _ (by decide))]
          simp [show rbrackChar ≠ ',' from by decide]
        | cons y t2 =>
          have he : renderElems (x :: y :: t2)
              = render x ++ ',' :: renderElems (y :: t2) := by
            simp [renderElems]
          have hlens : (renderElems (x :: y :: t2)).length
              = (render x).length + 1 + (renderElems (y :: t2)).length := by
            rw [he]
            simp
            omega
          rw [he, List.append_assoc, List.cons_append]
          simp only [parseElems]
          rw [ihV x (',' :: (renderElems (y :: t2) ++ rbrackChar :: rest))
            (by omega) (noLead_cons _ _ (by decide))]
          simp only [Option.map_some]
          rw [ihE (y :: t2) rest (by simp) (by omega)]
          simp
    · intro kvs rest hne hlen
      cases kvs with
      | nil => exact absurd rfl hne
      | cons kv t =>
        obtain ⟨k, v1⟩ := kv
        cases t with
        | nil =>
          have he : renderFields [(k, v1)] = renderString k ++ ':' :: render v1 := by
            simp [renderFields]
          have hlens : (renderFields [(k, v1)]).length
              = (renderString k).length + 1 + (render v1).length := by
            rw [he]
            simp
            omega
          rw [he, show (renderString k ++ ':' :: render v1) ++ rbraceChar :: rest
              = quoteChar :: (escapeChars k.data
                  ++ quoteChar :: (':' :: (render v1 ++ rbraceChar :: rest))) from by
            simp [renderString]]
          simp only [parseFields]
          rw [parseStringBody_escape]
          have hv := ihV v1 (rbraceChar :: rest) (by omega) (noLead_cons _ _ (by decide))
          simp [hv, string_mk_data, show rbraceChar ≠ ',' from by decide]
        | cons kv2 t2 =>
          have he : renderFields ((k, v1) :: kv2 :: t2)
              = renderString k ++ ':' :: render v1 ++ ',' :: renderFields (kv2 :: t2) := by
            simp [renderFields]
          have hlens : (renderFields ((k, v1) :: kv2 :: t2)).length
              = (renderString k).length + 1 + (render v1).length + 1
                + (renderFields (kv2 :: t2)).length := by
            rw [he]
            simp
            omega
          rw [he, show (renderString k ++ ':' :: render v1 ++ ',' :: renderFields (kv2 :: t2))
                ++ rbraceChar :: rest
              = quoteChar :: (escapeChars k.data ++ quoteChar :: (':' :: (render v1
                  ++ ',' :: (renderFields (kv2 :: t2) ++ rbraceChar :: rest)))) from by
            simp [renderString]]
          simp only [parseFields]
          rw [parseStringBody_escape]
          have hv := ihV v1 (',' :: (renderFields (kv2 :: t2) ++ rbraceChar :: rest))
            (by omega) (noLead_cons _ _ (by decide))
          have hf2 := ihF (kv2 :: t2) rest (by simp) (by omega)
          simp [hv, hf2, string_mk_data]

/-- A rendered document parses back to the value it was rendered from. -/
theorem parseJsonDoc_render (v : Json) : parseJsonDoc (render v) = some v := by
  have h := (parse_render_all ((render v).length + 1)).1 v [] (by omega) (by rfl)
  rw [List.append_nil] at h
  simp [parseJsonDoc, h]

/-- C7: for every `Raw` and `Store` request, `byte_down` produces exactly
one JSON document followed by exactly one trailing newline byte (the
rendered document itself contains no raw newline), and parsing the
produced text minus the delimiter recovers a document structurally equal
to the intended envelope — for `Raw` built by `new_raw_command`, the
object with the `raw` token array and the `credentials` pair, in that
order; for `Store`, the flat field record. -/
theorem c7_byteDown_framing_roundtrip :
    (∀ req : Req,
        (Req.byteDown req).getLast? = some nlChar
          ∧ (Req.byteDown req).count nlChar = 1
          ∧ parseJsonDoc ((Req.byteDown req).dropLast) = some (reqToJson req))
      ∧ ∀ cmd creds, reqToJson (Req.new_raw_command cmd creds)
          = .obj [("raw", .arr (cmd.map Json.str)),
              ("credentials", .arr (creds.map Json.str))] := by
  refine ⟨fun req => ⟨?_, ?_, ?_⟩, fun cmd creds => rfl⟩
  · rw [Req.byteDown, List.getLast?_concat]
  · rw [Req.byteDown, List.count_append,
      List.count_eq_zero.mpr (nl_not_mem_render (reqToJson req))]
    simp
  · rw [Req.byteDown, List.dropLast_concat, parseJsonDoc_render]

end Montycat
